import Mathlib

/-!
Shallow embedding of the TVL chart aggregation of
`src/packages/frontend2/src/server/features/scaling/tvl/utils/get-tvl-chart-data.ts`.

Conventions of the embedding:
* JavaScript numbers are modelled as `ℚ` (exact arithmetic); the fixed-point
  integer magnitudes of value records are `ℕ`.
* A JavaScript object keyed by numeric strings (timestamps) is modelled as an
  association list `List (Nat × α)` kept sorted by key: `Object.entries`
  iterates integer-index keys in ascending numeric order (Unix timestamps are
  array indices), so insertion (`jsSetNum`) places a fresh key at its sorted
  position and updates an existing key in place.
* An object keyed by non-numeric strings (project ids) iterates in insertion
  order, so `Object.values(values)` is just the list order of the input.
* A thrown `assert` is modelled by `Except String`: the whole computation
  aborts with the assertion message, producing no part of the result.
-/

namespace Tvl

instance {ε α : Type} [DecidableEq ε] [DecidableEq α] :
    DecidableEq (Except ε α) := fun x y =>
  match x, y with
  | .error a, .error b =>
    if h : a = b then .isTrue (by simp [h]) else .isFalse (by simp [h])
  | .ok a, .ok b =>
    if h : a = b then .isTrue (by simp [h]) else .isFalse (by simp [h])
  | .error _, .ok _ => .isFalse (by simp)
  | .ok _, .error _ => .isFalse (by simp)

/-- Source category of a value record, per the spec's data model
(`{native, canonical, external, ...}`). -/
inductive ValueSource where
  | native
  | canonical
  | external
deriving DecidableEq, Repr

/-- One project's asset value measurement: a source category, a monetary
magnitude in fixed-point integer representation, and the associated-token
flag that the exclusion option acts on.  The timestamp is not a field here
because records are always stored under their timestamp key in the
Project-Value Map. -/
structure ValueRecord where
  source : ValueSource
  value : Nat
  associated : Bool
deriving DecidableEq, Repr

/-- Result of the sum-per-source reduction. -/
structure SummedValues where
  native : Nat
  canonical : Nat
  external : Nat
deriving DecidableEq, Repr

/-- Sum of the magnitudes of the records of source category `s`, skipping
associated tokens when `excludeAssociated` is set. -/
def sumSource (records : List ValueRecord) (s : ValueSource)
    (excludeAssociated : Bool) : Nat :=
  ((records.filter
      (fun r => r.source == s && !(excludeAssociated && r.associated))).map
    (fun r => r.value)).sum

/-- Modelled from the spec: `sumValuesPerSource` is imported by
get-tvl-chart-data.ts but its source is not under src/.  Per the spec it is a
pure reduction `(records, {forTotal, excludeAssociatedTokens}) ->
{native, canonical, external}` returning the summed magnitudes per source
category, honouring `excludeAssociatedTokens` to exclude associated tokens
from the canonical/native totals (the external total is unaffected).  The
call site always passes `forTotal: true`, so that option is omitted here. -/
def sumValuesPerSource (records : List ValueRecord)
    (excludeAssociatedTokens : Bool) : SummedValues :=
  { native := sumSource records .native excludeAssociatedTokens
    canonical := sumSource records .canonical excludeAssociatedTokens
    external := sumSource records .external false }

/-- Lookup in a numeric-keyed JavaScript object (`m[k]`, `undefined ↦ none`). -/
def jsGetNum {α : Type} (m : List (Nat × α)) (k : Nat) : Option α :=
  match m with
  | [] => none
  | (k', v) :: rest => if k = k' then some v else jsGetNum rest k

/-- Assignment `m[k] = v` on a numeric-keyed JavaScript object whose entry
list is kept in ascending key order, matching the iteration order of
integer-index keys: an existing key is updated in place, a fresh key enters
at its sorted position. -/
def jsSetNum {α : Type} (m : List (Nat × α)) (k : Nat) (v : α) :
    List (Nat × α) :=
  match m with
  | [] => [(k, v)]
  | (k', v') :: rest =>
    if k < k' then (k, v) :: (k', v') :: rest
    else if k = k' then (k, v) :: rest
    else (k', v') :: jsSetNum rest k v

/-- The key list of an association list, in iteration order. -/
def keysOf {α : Type} (m : List (Nat × α)) : List Nat :=
  m.map (fun e => e.1)

/-- The inner loop of `getChartData`'s merge step: fold one project's
timestamp map into the accumulated `timestampValues`, concatenating record
lists bucket-wise (`timestampValues[timestamp] =
(timestampValues[timestamp] ?? []).concat(values)`). -/
def mergeProject (acc : List (Nat × List ValueRecord))
    (proj : List (Nat × List ValueRecord)) : List (Nat × List ValueRecord) :=
  proj.foldl (fun m e => jsSetNum m e.1 (((jsGetNum m e.1).getD []) ++ e.2)) acc

/-- The merge step of `getChartData` (lines 89–96): flatten the per-project,
per-timestamp value maps into one per-timestamp map. -/
def mergeTimestampValues
    (values : List (String × List (Nat × List ValueRecord))) :
    List (Nat × List ValueRecord) :=
  values.foldl (fun m p => mergeProject m p.2) []

/-- One emitted chart tuple
`[timestamp, native, canonical, external, ethPrice]`. -/
structure ChartPoint where
  timestamp : Nat
  native : ℚ
  canonical : ℚ
  external : ℚ
  ethPrice : ℚ
deriving DecidableEq, Repr

/-- The emission loop of `getChartData` (lines 98–111): map over the merged
entries in iteration order, summing each bucket per source, looking up the
ETH price and asserting its truthiness (`assert(ethPrice, 'No ETH price for '
+ timestamp)` throws when the lookup is `undefined` or the price is `0`),
then emitting `[+timestamp, native, canonical, external, ethPrice * 100]`.
A thrown assertion aborts the whole map with no part of the result. -/
def chartPoints (ethPrices : List (Nat × ℚ)) (excludeAssociatedTokens : Bool) :
    List (Nat × List ValueRecord) → Except String (List ChartPoint)
  | [] => .ok []
  | (t, records) :: rest =>
    let summed := sumValuesPerSource records excludeAssociatedTokens
    match jsGetNum ethPrices t with
    | none => .error ("No ETH price for " ++ toString t)
    | some p =>
      if p = 0 then .error ("No ETH price for " ++ toString t)
      else
        match chartPoints ethPrices excludeAssociatedTokens rest with
        | .error e => .error e
        | .ok tail =>
          .ok ({ timestamp := t, native := summed.native,
                 canonical := summed.canonical, external := summed.external,
                 ethPrice := p * 100 } :: tail)

/-- `getChartData` (lines 84–112): merge the Project-Value Map into
per-timestamp buckets, then emit one chart tuple per timestamp. -/
def getChartData (values : List (String × List (Nat × List ValueRecord)))
    (ethPrices : List (Nat × ℚ)) (excludeAssociatedTokens : Bool) :
    Except String (List ChartPoint) :=
  chartPoints ethPrices excludeAssociatedTokens (mergeTimestampValues values)

/-- The latest-total summary `{usd, eth}`. -/
structure TvlTotal where
  usd : ℚ
  eth : ℚ
deriving DecidableEq, Repr

/-- The latest-total step of `getCachedTvlChartData` (lines 66–76):
`latestValue = lastWeekChart.at(-1)`, `assert(latestValue, 'No latest
value')`, `total = latestValue[1] + latestValue[2] + latestValue[3]`, and the
summary `{usd: total / 100, eth: total / latestValue[4]}`. -/
def computeTotal (chart : List ChartPoint) : Except String TvlTotal :=
  match chart.getLast? with
  | none => .error "No latest value"
  | some latest =>
    let total := latest.native + latest.canonical + latest.external
    .ok { usd := total / 100, eth := total / latest.ethPrice }

/-- Timestamps appearing in the Project-Value Map, project by project, with
multiplicity. -/
def inputTimestamps
    (values : List (String × List (Nat × List ValueRecord))) : List Nat :=
  (values.map (fun p => keysOf p.2)).flatten

/-- All records of one project's timestamp map stored under key `t`, in entry
order. -/
def projectBucket (proj : List (Nat × List ValueRecord)) (t : Nat) :
    List ValueRecord :=
  match proj with
  | [] => []
  | (t', records) :: rest =>
    if t' = t then records ++ projectBucket rest t else projectBucket rest t

/-- All records of the whole Project-Value Map stored under key `t`, in
project order. -/
def allBucket (values : List (String × List (Nat × List ValueRecord)))
    (t : Nat) : List ValueRecord :=
  match values with
  | [] => []
  | p :: rest => projectBucket p.2 t ++ allBucket rest t

/-- Mock-mode resolution of a chart range. -/
inductive TvlResolution where
  | hourly
  | daily
deriving DecidableEq, Repr

/-- Seconds per bucket of a resolution. -/
def bucketSeconds : TvlResolution → Nat
  | .hourly => 3600
  | .daily => 86400

/-- Modelled from the spec: `getRangeConfig` is imported by
get-tvl-chart-data.ts but its source is not under src/.  The spec fixes only
the configuration of range `'7d'`: 7 days at hourly resolution. -/
def rangeConfig7d : Nat × TvlResolution := (7, .hourly)

/-- Modelled from the spec: `generateTimestamps` is imported by
get-tvl-chart-data.ts but its source is not under src/.  Per the spec it
produces the evenly spaced timestamps over `[start, target]` at the given
step, boundaries inclusive. -/
def generateTimestamps (start target step : Nat) : List Nat :=
  (List.range ((target - start) / step + 1)).map (fun i => start + i * step)

/-- `getMockTvlChartData` (lines 114–132) specialised to range `'7d'`.
`getTvlTargetTimestamp` and `UnixTime` are not under src/, so they are
modelled from the spec: the target timestamp is an arbitrary current time
`now` truncated to the start of its hour (`toStartOf('hour')`), `from` is
`target.add(-days, 'days')`, i.e. `days * 86400` seconds earlier, and the
chart maps every generated timestamp to the fixed placeholder magnitudes
`[timestamp, 3000, 2000, 1000, 1200]` with total `{usd: 60, eth: 5}`. -/
def getMockTvlChartData7d (now : Nat) : TvlTotal × List ChartPoint :=
  let cfg := rangeConfig7d
  let step := bucketSeconds cfg.2
  let target := now / 3600 * 3600
  let start := target - cfg.1 * 86400
  let timestamps := generateTimestamps start target step
  ({ usd := 60, eth := 5 },
   timestamps.map (fun t =>
     { timestamp := t, native := 3000, canonical := 2000, external := 1000,
       ethPrice := 1200 }))

/-- What the emission loop does to one merged entry `e = (timestamp, records)`
that yields the chart tuple `pt`: the price lookup succeeded with a truthy
(nonzero) price `p`, and `pt` carries the per-source sums of the bucket,
unrescaled, with `p * 100` attached. -/
def emitsPoint (ethPrices : List (Nat × ℚ)) (excludeAssociatedTokens : Bool)
    (e : Nat × List ValueRecord) (pt : ChartPoint) : Prop :=
  ∃ p : ℚ, jsGetNum ethPrices e.1 = some p ∧ p ≠ 0 ∧
    pt = { timestamp := e.1,
           native := (sumValuesPerSource e.2 excludeAssociatedTokens).native,
           canonical :=
             (sumValuesPerSource e.2 excludeAssociatedTokens).canonical,
           external :=
             (sumValuesPerSource e.2 excludeAssociatedTokens).external,
           ethPrice := p * 100 }

/-- A concrete two-project Project-Value Map used by witnesses: P1 has
records at timestamps 100 and 200, P2 shares timestamp 100. -/
def exValues : List (String × List (Nat × List ValueRecord)) :=
  [("P1", [(100, [{ source := .native, value := 500, associated := false }]),
           (200, [{ source := .canonical, value := 300,
                    associated := true }])]),
   ("P2", [(100, [{ source := .external, value := 7, associated := false }])])]

/-- `exValues` with its two projects listed in the opposite order. -/
def exValuesSwapped : List (String × List (Nat × List ValueRecord)) :=
  [("P2", [(100, [{ source := .external, value := 7, associated := false }])]),
   ("P1", [(100, [{ source := .native, value := 500, associated := false }]),
           (200, [{ source := .canonical, value := 300,
                    associated := true }])])]

/-- A concrete Price Map covering timestamps 100 and 200. -/
def exPrices : List (Nat × ℚ) := [(100, 2), (200, 3)]

/-- A Price Map covering only timestamp 100, so timestamp 200 is absent. -/
def exPricesPart : List (Nat × ℚ) := [(100, 2)]

/-- A Price Map whose entry for timestamp 100 is present but zero. -/
def exPricesZero : List (Nat × ℚ) := [(100, 0), (200, 3)]

/-- The chart `getChartData` produces from `exValues`, `exPrices`,
`excludeAssociatedTokens = false`. -/
def exChart : List ChartPoint :=
  [{ timestamp := 100, native := 500, canonical := 0, external := 7,
     ethPrice := 200 },
   { timestamp := 200, native := 0, canonical := 300, external := 0,
     ethPrice := 300 }]

/-- The chart `getChartData` produces from `exValues`, `exPrices`,
`excludeAssociatedTokens = true`: the associated canonical record of
timestamp 200 is excluded. -/
def exChartEx : List ChartPoint :=
  [{ timestamp := 100, native := 500, canonical := 0, external := 7,
     ethPrice := 200 },
   { timestamp := 200, native := 0, canonical := 0, external := 0,
     ethPrice := 300 }]

/-- The single-record input of the spec's worked example:
`{P1: {100: [{source: 'native', value: 500}]}}` with price map
`{100: 2000}`. -/
def exValuesSpec : List (String × List (Nat × List ValueRecord)) :=
  [("P1", [(100, [{ source := .native, value := 500, associated := false }])])]

/-- The price map of the spec's worked example. -/
def exPricesSpec : List (Nat × ℚ) := [(100, 2000)]

section ObjectLemmas

variable {α : Type}

@[simp]
theorem keysOf_nil : keysOf ([] : List (Nat × α)) = [] := rfl

@[simp]
theorem keysOf_cons (e : Nat × α) (m : List (Nat × α)) :
    keysOf (e :: m) = e.1 :: keysOf m := rfl

theorem jsGetNum_jsSetNum_self (m : List (Nat × α)) (k : Nat) (v : α) :
    jsGetNum (jsSetNum m k v) k = some v := by
  induction m with
  | nil => simp [jsSetNum, jsGetNum]
  | cons e rest ih =>
    obtain ⟨k', v'⟩ := e
    by_cases hlt : k < k'
    · simp [jsSetNum, hlt, jsGetNum, Nat.ne_of_lt hlt]
    · by_cases heq : k = k'
      · simp [jsSetNum, hlt, heq, jsGetNum]
      · simp [jsSetNum, hlt, heq, jsGetNum, ih]

theorem jsGetNum_jsSetNum_ne (m : List (Nat × α)) (k t : Nat) (v : α)
    (h : t ≠ k) : jsGetNum (jsSetNum m k v) t = jsGetNum m t := by
  induction m with
  | nil => simp [jsSetNum, jsGetNum, h]
  | cons e rest ih =>
    obtain ⟨k', v'⟩ := e
    by_cases hlt : k < k'
    · simp [jsSetNum, hlt, jsGetNum, h]
    · by_cases heq : k = k'
      · subst heq
        simp [jsSetNum, hlt, jsGetNum, h]
      · by_cases ht : t = k'
        · simp [jsSetNum, hlt, heq, jsGetNum, ht]
        · simp [jsSetNum, hlt, heq, jsGetNum, ht, ih]

theorem mem_keysOf_jsSetNum (m : List (Nat × α)) (k t : Nat) (v : α) :
    t ∈ keysOf (jsSetNum m k v) ↔ t = k ∨ t ∈ keysOf m := by
  induction m with
  | nil => simp [jsSetNum, keysOf]
  | cons e rest ih =>
    obtain ⟨k', v'⟩ := e
    simp only [jsSetNum]
    split
    · simp only [keysOf_cons, List.mem_cons]
    · split
      · rename_i heq
        subst heq
        simp only [keysOf_cons, List.mem_cons]
        tauto
      · simp only [keysOf_cons, List.mem_cons, ih]
        tauto

theorem pairwise_keysOf_jsSetNum (m : List (Nat × α)) (k : Nat) (v : α)
    (h : (keysOf m).Pairwise (· < ·)) :
    (keysOf (jsSetNum m k v)).Pairwise (· < ·) := by
  induction m with
  | nil => simp [jsSetNum, keysOf]
  | cons e rest ih =>
    obtain ⟨k', v'⟩ := e
    simp only [keysOf_cons, List.pairwise_cons] at h
    simp only [jsSetNum]
    split
    · rename_i hlt
      simp only [keysOf_cons, List.pairwise_cons]
      refine ⟨?_, h.1, h.2⟩
      intro t ht
      simp only [List.mem_cons] at ht
      rcases ht with rfl | ht
      · exact hlt
      · exact Nat.lt_trans hlt (h.1 t ht)
    · split
      · rename_i hlt heq
        subst heq
        simp only [keysOf_cons, List.pairwise_cons]
        exact ⟨h.1, h.2⟩
      · rename_i hlt heq
        have hk'k : k' < k := by omega
        simp only [keysOf_cons, List.pairwise_cons]
        refine ⟨?_, ih h.2⟩
        intro t ht
        rw [mem_keysOf_jsSetNum] at ht
        rcases ht with rfl | ht
        · exact hk'k
        · exact h.1 t ht

theorem jsGetNum_eq_none_iff (m : List (Nat × α)) (t : Nat) :
    jsGetNum m t = none ↔ t ∉ keysOf m := by
  induction m with
  | nil => simp [jsGetNum, keysOf]
  | cons e rest ih =>
    obtain ⟨k', v'⟩ := e
    by_cases ht : t = k'
    · simp [jsGetNum, ht, keysOf]
    · simp [jsGetNum, ht, keysOf, ih]

theorem jsGetNum_isSome_iff (m : List (Nat × α)) (t : Nat) :
    (jsGetNum m t).isSome ↔ t ∈ keysOf m := by
  have h := jsGetNum_eq_none_iff m t
  cases hj : jsGetNum m t <;> simp [hj] at h ⊢ <;> tauto

end ObjectLemmas

section MergeLemmas

@[simp]
theorem mergeProject_nil (acc : List (Nat × List ValueRecord)) :
    mergeProject acc [] = acc := rfl

theorem mergeProject_cons (acc : List (Nat × List ValueRecord))
    (e : Nat × List ValueRecord) (proj : List (Nat × List ValueRecord)) :
    mergeProject acc (e :: proj) =
      mergeProject (jsSetNum acc e.1 (((jsGetNum acc e.1).getD []) ++ e.2))
        proj := rfl

theorem pairwise_keysOf_mergeProject (proj : List (Nat × List ValueRecord))
    (acc : List (Nat × List ValueRecord))
    (h : (keysOf acc).Pairwise (· < ·)) :
    (keysOf (mergeProject acc proj)).Pairwise (· < ·) := by
  induction proj generalizing acc with
  | nil => simpa using h
  | cons e rest ih =>
    rw [mergeProject_cons]
    exact ih _ (pairwise_keysOf_jsSetNum _ _ _ h)

theorem mem_keysOf_mergeProject (proj : List (Nat × List ValueRecord))
    (acc : List (Nat × List ValueRecord)) (t : Nat) :
    t ∈ keysOf (mergeProject acc proj) ↔
      t ∈ keysOf acc ∨ t ∈ keysOf proj := by
  induction proj generalizing acc with
  | nil => simp
  | cons e rest ih =>
    rw [mergeProject_cons, ih, mem_keysOf_jsSetNum]
    simp only [keysOf_cons, List.mem_cons]
    tauto

@[simp]
theorem projectBucket_nil (t : Nat) : projectBucket [] t = [] := rfl

theorem projectBucket_cons (t' : Nat) (recs : List ValueRecord)
    (rest : List (Nat × List ValueRecord)) (t : Nat) :
    projectBucket ((t', recs) :: rest) t =
      if t' = t then recs ++ projectBucket rest t else projectBucket rest t :=
  rfl

theorem getD_jsGetNum_mergeProject (proj : List (Nat × List ValueRecord))
    (acc : List (Nat × List ValueRecord)) (t : Nat) :
    (jsGetNum (mergeProject acc proj) t).getD [] =
      ((jsGetNum acc t).getD []) ++ projectBucket proj t := by
  induction proj generalizing acc with
  | nil => simp
  | cons e rest ih =>
    obtain ⟨t', recs⟩ := e
    rw [mergeProject_cons, ih, projectBucket_cons]
    by_cases ht : t' = t
    · subst ht
      rw [if_pos rfl, jsGetNum_jsSetNum_self]
      simp [List.append_assoc]
    · rw [if_neg ht, jsGetNum_jsSetNum_ne _ _ _ _ (fun h => ht h.symm)]

@[simp]
theorem allBucket_nil (t : Nat) : allBucket [] t = [] := rfl

@[simp]
theorem allBucket_cons (p : String × List (Nat × List ValueRecord))
    (rest : List (String × List (Nat × List ValueRecord))) (t : Nat) :
    allBucket (p :: rest) t = projectBucket p.2 t ++ allBucket rest t := rfl

@[simp]
theorem inputTimestamps_nil : inputTimestamps [] = [] := rfl

@[simp]
theorem inputTimestamps_cons (p : String × List (Nat × List ValueRecord))
    (rest : List (String × List (Nat × List ValueRecord))) :
    inputTimestamps (p :: rest) = keysOf p.2 ++ inputTimestamps rest := by
  simp [inputTimestamps]

theorem mergeTimestampValues_eq_foldl
    (values : List (String × List (Nat × List ValueRecord))) :
    mergeTimestampValues values =
      values.foldl (fun m p => mergeProject m p.2) [] := rfl

theorem pairwise_keysOf_mergeFold
    (values : List (String × List (Nat × List ValueRecord)))
    (acc : List (Nat × List ValueRecord))
    (h : (keysOf acc).Pairwise (· < ·)) :
    (keysOf (values.foldl (fun m p => mergeProject m p.2) acc)).Pairwise
      (· < ·) := by
  induction values generalizing acc with
  | nil => simpa using h
  | cons p rest ih =>
    rw [List.foldl_cons]
    exact ih _ (pairwise_keysOf_mergeProject _ _ h)

theorem mem_keysOf_mergeFold
    (values : List (String × List (Nat × List ValueRecord)))
    (acc : List (Nat × List ValueRecord)) (t : Nat) :
    t ∈ keysOf (values.foldl (fun m p => mergeProject m p.2) acc) ↔
      t ∈ keysOf acc ∨ t ∈ inputTimestamps values := by
  induction values generalizing acc with
  | nil => simp
  | cons p rest ih =>
    rw [List.foldl_cons, ih, mem_keysOf_mergeProject]
    simp only [inputTimestamps_cons, List.mem_append]
    tauto

theorem getD_jsGetNum_mergeFold
    (values : List (String × List (Nat × List ValueRecord)))
    (acc : List (Nat × List ValueRecord)) (t : Nat) :
    (jsGetNum (values.foldl (fun m p => mergeProject m p.2) acc) t).getD [] =
      ((jsGetNum acc t).getD []) ++ allBucket values t := by
  induction values generalizing acc with
  | nil => simp
  | cons p rest ih =>
    rw [List.foldl_cons, ih, getD_jsGetNum_mergeProject]
    simp [List.append_assoc]

theorem pairwise_keysOf_merged
    (values : List (String × List (Nat × List ValueRecord))) :
    (keysOf (mergeTimestampValues values)).Pairwise (· < ·) := by
  rw [mergeTimestampValues_eq_foldl]
  exact pairwise_keysOf_mergeFold values [] (by simp)

theorem nodup_keysOf_merged
    (values : List (String × List (Nat × List ValueRecord))) :
    (keysOf (mergeTimestampValues values)).Nodup :=
  (pairwise_keysOf_merged values).imp (fun h => Nat.ne_of_lt h)

theorem mem_keysOf_merged
    (values : List (String × List (Nat × List ValueRecord))) (t : Nat) :
    t ∈ keysOf (mergeTimestampValues values) ↔ t ∈ inputTimestamps values := by
  rw [mergeTimestampValues_eq_foldl, mem_keysOf_mergeFold]
  simp

theorem getD_jsGetNum_merged
    (values : List (String × List (Nat × List ValueRecord))) (t : Nat) :
    (jsGetNum (mergeTimestampValues values) t).getD [] = allBucket values t := by
  rw [mergeTimestampValues_eq_foldl, getD_jsGetNum_mergeFold]
  simp [jsGetNum]

end MergeLemmas

section ChartPointsLemmas

theorem chartPoints_cons (prices : List (Nat × ℚ)) (ex : Bool) (t : Nat)
    (records : List ValueRecord) (rest : List (Nat × List ValueRecord)) :
    chartPoints prices ex ((t, records) :: rest) =
      match jsGetNum prices t with
      | none => .error ("No ETH price for " ++ toString t)
      | some p =>
        if p = 0 then .error ("No ETH price for " ++ toString t)
        else
          match chartPoints prices ex rest with
          | .error e => .error e
          | .ok tail =>
            .ok ({ timestamp := t,
                   native := (sumValuesPerSource records ex).native,
                   canonical := (sumValuesPerSource records ex).canonical,
                   external := (sumValuesPerSource records ex).external,
                   ethPrice := p * 100 } :: tail) := rfl

theorem forall2_exists_right {α β : Type} {R : α → β → Prop}
    {l₁ : List α} {l₂ : List β} (h : List.Forall₂ R l₁ l₂) {a : α}
    (ha : a ∈ l₁) : ∃ b ∈ l₂, R a b := by
  induction h with
  | nil => simp at ha
  | cons hr hrest ih =>
    rcases List.mem_cons.1 ha with rfl | ha
    · exact ⟨_, List.mem_cons_self _ _, hr⟩
    · obtain ⟨b, hb, hab⟩ := ih ha
      exact ⟨b, List.mem_cons_of_mem _ hb, hab⟩

theorem forall2_exists_left {α β : Type} {R : α → β → Prop}
    {l₁ : List α} {l₂ : List β} (h : List.Forall₂ R l₁ l₂) {b : β}
    (hb : b ∈ l₂) : ∃ a ∈ l₁, R a b := by
  induction h with
  | nil => simp at hb
  | cons hr hrest ih =>
    rcases List.mem_cons.1 hb with rfl | hb
    · exact ⟨_, List.mem_cons_self _ _, hr⟩
    · obtain ⟨a, ha, hab⟩ := ih hb
      exact ⟨a, List.mem_cons_of_mem _ ha, hab⟩

theorem forall2_comp {α β γ : Type} {R : α → β → Prop} {S : α → γ → Prop}
    {T : β → γ → Prop} (hT : ∀ a b c, R a b → S a c → T b c) :
    ∀ {m : List α} {l₁ : List β} {l₂ : List γ},
      List.Forall₂ R m l₁ → List.Forall₂ S m l₂ → List.Forall₂ T l₁ l₂ := by
  intro m
  induction m with
  | nil =>
    intro l₁ l₂ h1 h2
    cases h1
    cases h2
    exact List.Forall₂.nil
  | cons a m ih =>
    intro l₁ l₂ h1 h2
    cases h1 with
    | cons hr h1 =>
      cases h2 with
      | cons hs h2 => exact List.Forall₂.cons (hT _ _ _ hr hs) (ih h1 h2)

theorem chartPoints_ok_forall2 (prices : List (Nat × ℚ)) (ex : Bool) :
    ∀ (m : List (Nat × List ValueRecord)) (chart : List ChartPoint),
      chartPoints prices ex m = .ok chart →
      List.Forall₂ (emitsPoint prices ex) m chart := by
  intro m
  induction m with
  | nil =>
    intro chart h
    cases h
    exact List.Forall₂.nil
  | cons e rest ih =>
    intro chart h
    obtain ⟨t, recs⟩ := e
    rw [chartPoints_cons] at h
    split at h
    · cases h
    · rename_i p hp
      split at h
      · cases h
      · rename_i hz
        split at h
        · cases h
        · rename_i tail htail
          cases h
          exact List.Forall₂.cons ⟨p, hp, hz, rfl⟩ (ih tail htail)

theorem chartPoints_error_shape (prices : List (Nat × ℚ)) (ex : Bool) :
    ∀ (m : List (Nat × List ValueRecord)) (e : String),
      chartPoints prices ex m = .error e →
      ∃ t ∈ keysOf m, (jsGetNum prices t).getD 0 = 0 ∧
        e = "No ETH price for " ++ toString t := by
  intro m
  induction m with
  | nil => intro e h; cases h
  | cons entry rest ih =>
    intro e h
    obtain ⟨t, recs⟩ := entry
    rw [chartPoints_cons] at h
    split at h
    · rename_i hp
      cases h
      exact ⟨t, by simp, by simp [hp]⟩
    · rename_i p hp
      split at h
      · rename_i hz
        cases h
        exact ⟨t, by simp, by simp [hp, hz]⟩
      · split at h
        · rename_i e' htail
          cases h
          obtain ⟨u, hu, hbad, he⟩ := ih _ htail
          exact ⟨u, by simp [hu], hbad, he⟩
        · cases h

theorem chartPoints_ok_of_prices (prices : List (Nat × ℚ)) (ex : Bool)
    (m : List (Nat × List ValueRecord))
    (h : ∀ t ∈ keysOf m, (jsGetNum prices t).getD 0 ≠ 0) :
    ∃ chart, chartPoints prices ex m = .ok chart := by
  cases hres : chartPoints prices ex m with
  | ok chart => exact ⟨chart, rfl⟩
  | error e =>
    exfalso
    obtain ⟨u, hu, hbad, _⟩ := chartPoints_error_shape prices ex m e hres
    exact h u hu hbad

theorem chartPoints_error_of_bad_price (prices : List (Nat × ℚ)) (ex : Bool)
    (m : List (Nat × List ValueRecord)) (t : Nat) (hmem : t ∈ keysOf m)
    (hbad : (jsGetNum prices t).getD 0 = 0) :
    ∃ e, chartPoints prices ex m = .error e := by
  cases hres : chartPoints prices ex m with
  | error e => exact ⟨e, rfl⟩
  | ok chart =>
    exfalso
    have h2 := chartPoints_ok_forall2 prices ex m chart hres
    obtain ⟨e, he, het⟩ := List.mem_map.1 hmem
    obtain ⟨pt, _, p, hp, hz, _⟩ := forall2_exists_right h2 he
    rw [het] at hp
    rw [hp] at hbad
    exact hz (by simpa using hbad)

theorem map_timestamp_of_forall2 {prices : List (Nat × ℚ)} {ex : Bool}
    {m : List (Nat × List ValueRecord)} {chart : List ChartPoint}
    (h : List.Forall₂ (emitsPoint prices ex) m chart) :
    chart.map (fun pt => pt.timestamp) = keysOf m := by
  induction h with
  | nil => rfl
  | cons he _ ih =>
    obtain ⟨p, _, _, hpt⟩ := he
    subst hpt
    simp only [List.map_cons, keysOf_cons, ih]

end ChartPointsLemmas

section PermLemmas

theorem sumSource_perm {recs recs' : List ValueRecord} (h : recs.Perm recs')
    (s : ValueSource) (ex : Bool) :
    sumSource recs s ex = sumSource recs' s ex :=
  ((h.filter _).map _).sum_eq

theorem sumValuesPerSource_perm {recs recs' : List ValueRecord}
    (h : recs.Perm recs') (ex : Bool) :
    sumValuesPerSource recs ex = sumValuesPerSource recs' ex := by
  simp only [sumValuesPerSource, sumSource_perm h]

theorem allBucket_eq_flatten
    (values : List (String × List (Nat × List ValueRecord))) (t : Nat) :
    allBucket values t =
      (values.map (fun p => projectBucket p.2 t)).flatten := by
  induction values with
  | nil => rfl
  | cons p rest ih => simp [ih]

theorem allBucket_perm
    {values values' : List (String × List (Nat × List ValueRecord))}
    (h : values.Perm values') (t : Nat) :
    (allBucket values t).Perm (allBucket values' t) := by
  rw [allBucket_eq_flatten, allBucket_eq_flatten]
  exact (h.map _).flatten

theorem sorted_mem_eq :
    ∀ {l₁ l₂ : List Nat}, l₁.Pairwise (· < ·) → l₂.Pairwise (· < ·) →
      (∀ t, t ∈ l₁ ↔ t ∈ l₂) → l₁ = l₂ := by
  intro l₁
  induction l₁ with
  | nil =>
    intro l₂ _ _ hm
    cases l₂ with
    | nil => rfl
    | cons b m =>
      have hb := (hm b).2 (by simp)
      simp at hb
  | cons a l ih =>
    intro l₂ h₁ h₂ hm
    cases l₂ with
    | nil =>
      have ha := (hm a).1 (by simp)
      simp at ha
    | cons b m =>
      rw [List.pairwise_cons] at h₁ h₂
      have hab : a = b := by
        have ha := (hm a).1 (by simp)
        have hb := (hm b).2 (by simp)
        simp only [List.mem_cons] at ha hb
        rcases ha with h | ha
        · exact h
        rcases hb with h | hb
        · exact h.symm
        have h3 := h₂.1 a ha
        have h4 := h₁.1 b hb
        omega
      subst hab
      congr 1
      apply ih h₁.2 h₂.2
      intro t
      constructor
      · intro htl
        have hta : a < t := h₁.1 t htl
        have := (hm t).1 (List.mem_cons_of_mem _ htl)
        rcases List.mem_cons.1 this with rfl | hmem
        · omega
        · exact hmem
      · intro htm
        have hta : a < t := h₂.1 t htm
        have := (hm t).2 (List.mem_cons_of_mem _ htm)
        rcases List.mem_cons.1 this with rfl | hmem
        · omega
        · exact hmem

theorem forall2_of_lookup_perm :
    ∀ (m₁ m₂ : List (Nat × List ValueRecord)),
      keysOf m₁ = keysOf m₂ → (keysOf m₁).Pairwise (· < ·) →
      (∀ t, ((jsGetNum m₁ t).getD []).Perm ((jsGetNum m₂ t).getD [])) →
      List.Forall₂ (fun e₁ e₂ => e₁.1 = e₂.1 ∧ e₁.2.Perm e₂.2) m₁ m₂ := by
  intro m₁
  induction m₁ with
  | nil =>
    intro m₂ hk _ _
    cases m₂ with
    | nil => exact List.Forall₂.nil
    | cons e₂ r₂ => simp [keysOf] at hk
  | cons e₁ r₁ ih =>
    intro m₂ hk hs hl
    cases m₂ with
    | nil => simp [keysOf] at hk
    | cons e₂ r₂ =>
      obtain ⟨k, v₁⟩ := e₁
      obtain ⟨k₂, v₂⟩ := e₂
      simp only [keysOf_cons, List.cons.injEq] at hk
      obtain ⟨rfl, hkrest⟩ := hk
      simp only [keysOf_cons, List.pairwise_cons] at hs
      have hknot : k ∉ keysOf r₁ := fun hmem => by
        have := hs.1 k hmem
        omega
      have hknot₂ : k ∉ keysOf r₂ := by
        rw [← hkrest]
        exact hknot
      refine List.Forall₂.cons ⟨rfl, ?_⟩ (ih r₂ hkrest hs.2 ?_)
      · have := hl k
        simpa [jsGetNum] using this
      · intro t
        by_cases ht : t = k
        · subst ht
          rw [(jsGetNum_eq_none_iff r₁ t).2 hknot,
            (jsGetNum_eq_none_iff r₂ t).2 hknot₂]
        · have := hl t
          simpa [jsGetNum, ht] using this

theorem inputTimestamps_perm
    {values values' : List (String × List (Nat × List ValueRecord))}
    (h : values.Perm values') :
    (inputTimestamps values).Perm (inputTimestamps values') :=
  (h.map _).flatten

theorem keysOf_merged_eq_of_perm
    {values values' : List (String × List (Nat × List ValueRecord))}
    (h : values.Perm values') :
    keysOf (mergeTimestampValues values) =
      keysOf (mergeTimestampValues values') := by
  apply sorted_mem_eq (pairwise_keysOf_merged values)
    (pairwise_keysOf_merged values')
  intro t
  rw [mem_keysOf_merged, mem_keysOf_merged]
  exact ⟨fun ht => (inputTimestamps_perm h).mem_iff.1 ht,
    fun ht => (inputTimestamps_perm h).mem_iff.2 ht⟩

theorem chartPoints_congr (prices : List (Nat × ℚ)) (ex : Bool)
    {m₁ m₂ : List (Nat × List ValueRecord)}
    (h : List.Forall₂ (fun e₁ e₂ => e₁.1 = e₂.1 ∧ e₁.2.Perm e₂.2) m₁ m₂) :
    chartPoints prices ex m₁ = chartPoints prices ex m₂ := by
  induction h with
  | nil => rfl
  | cons he hrest ih =>
    rename_i e₁ e₂ r₁ r₂
    obtain ⟨k, v₁⟩ := e₁
    obtain ⟨k₂, v₂⟩ := e₂
    obtain ⟨hkk, hperm⟩ := he
    cases hkk
    rw [chartPoints_cons, chartPoints_cons, ih,
      sumValuesPerSource_perm hperm ex]

end PermLemmas

section MonotoneLemmas

theorem sumSource_exclude_le (recs : List ValueRecord) (s : ValueSource) :
    sumSource recs s true ≤ sumSource recs s false := by
  induction recs with
  | nil => exact Nat.le_refl 0
  | cons r rest ih =>
    by_cases hs : r.source = s
    · by_cases ha : r.associated
      · simp only [sumSource, List.filter_cons, hs, ha] at ih ⊢
        simp at ih ⊢
        omega
      · simp only [sumSource, List.filter_cons, hs, ha] at ih ⊢
        simp at ih ⊢
        omega
    · simp only [sumSource, List.filter_cons] at ih ⊢
      simp [hs] at ih ⊢
      omega

end MonotoneLemmas

section ComputeTotalLemmas

theorem computeTotal_nil : computeTotal [] = .error "No latest value" := rfl

theorem computeTotal_last (chart : List ChartPoint) (pt : ChartPoint)
    (h : chart.getLast? = some pt) :
    computeTotal chart =
      .ok { usd := (pt.native + pt.canonical + pt.external) / 100,
            eth := (pt.native + pt.canonical + pt.external) / pt.ethPrice } := by
  rw [computeTotal, h]

end ComputeTotalLemmas

/-! ## Claim theorems -/

/-- Claim C1: for every Project-Value Map input (including the empty map),
`getChartData` returns exactly one chart point per distinct timestamp
appearing across all projects — when the aggregation returns a chart, its
length is the number of distinct input timestamps, its timestamps are
pairwise distinct and are exactly the input timestamps; and the empty map
yields the empty chart. -/
theorem getChartData_point_count :
    (∀ (prices : List (Nat × ℚ)) (ex : Bool),
        getChartData [] prices ex = .ok []) ∧
    (∀ (values : List (String × List (Nat × List ValueRecord)))
        (prices : List (Nat × ℚ)) (ex : Bool) (chart : List ChartPoint),
        getChartData values prices ex = .ok chart →
        chart.length = (inputTimestamps values).dedup.length ∧
        (chart.map (fun pt => pt.timestamp)).Nodup ∧
        (∀ t, t ∈ chart.map (fun pt => pt.timestamp) ↔
          t ∈ inputTimestamps values)) := by
  constructor
  · intro prices ex
    rfl
  · intro values prices ex chart h
    have hf := chartPoints_ok_forall2 prices ex _ chart h
    have hmap := map_timestamp_of_forall2 hf
    have hnodup := nodup_keysOf_merged values
    refine ⟨?_, ?_, ?_⟩
    · have hperm : (keysOf (mergeTimestampValues values)).Perm
          (inputTimestamps values).dedup :=
        List.perm_of_nodup_nodup_toFinset_eq hnodup (List.nodup_dedup _)
          (List.toFinset.ext fun t => by
            rw [mem_keysOf_merged, List.mem_dedup])
      have : chart.length =
          (keysOf (mergeTimestampValues values)).length := by
        rw [← hmap, List.length_map]
      rw [this, hperm.length_eq]
    · rw [hmap]
      exact hnodup
    · intro t
      rw [hmap, mem_keysOf_merged]

/-- Witness for C1 at a concrete two-project input: three record entries
share the two distinct timestamps 100 and 200, and the chart has exactly two
points, one per distinct timestamp. -/
theorem getChartData_point_count_witness :
    getChartData exValues exPrices false = .ok exChart ∧
    exChart.length = (inputTimestamps exValues).dedup.length ∧
    (exChart.map (fun pt => pt.timestamp)).Nodup ∧
    (∀ t, t ∈ exChart.map (fun pt => pt.timestamp) ↔
      t ∈ inputTimestamps exValues) :=
  ⟨by norm_num +decide [exValues, exPrices, exChart, getChartData,
      chartPoints, mergeTimestampValues, mergeProject, jsSetNum, jsGetNum,
      sumValuesPerSource, sumSource],
   getChartData_point_count.2 exValues exPrices false exChart
     (by norm_num +decide [exValues, exPrices, exChart, getChartData,
       chartPoints, mergeTimestampValues, mergeProject, jsSetNum, jsGetNum,
       sumValuesPerSource, sumSource])⟩

/-- Claim C2: if some timestamp of the Project-Value Map has no entry in the
Price Map, `getChartData` fails with the missing-price error
(`'No ETH price for ' + timestamp`) and — the result being an `Except` —
produces no partial chart; when every input timestamp has a price entry
(positive, per the spec's Price Map invariant), no such failure occurs. -/
theorem getChartData_missing_price
    (values : List (String × List (Nat × List ValueRecord)))
    (prices : List (Nat × ℚ)) (ex : Bool) :
    ((∃ t ∈ inputTimestamps values, jsGetNum prices t = none) →
      ∃ t : Nat, getChartData values prices ex =
        .error ("No ETH price for " ++ toString t)) ∧
    ((∀ t ∈ inputTimestamps values, 0 < (jsGetNum prices t).getD 0) →
      ∃ chart, getChartData values prices ex = .ok chart) := by
  constructor
  · rintro ⟨t, hmem, hnone⟩
    rw [← mem_keysOf_merged] at hmem
    obtain ⟨e, he⟩ := chartPoints_error_of_bad_price prices ex _ t hmem
      (by simp [hnone])
    obtain ⟨u, _, _, hshape⟩ :=
      chartPoints_error_shape prices ex (mergeTimestampValues values) e he
    refine ⟨u, ?_⟩
    rw [getChartData, he, hshape]
  · intro hpos
    apply chartPoints_ok_of_prices
    intro t hmem
    exact (hpos t ((mem_keysOf_merged values t).1 hmem)).ne'

/-- Witness for C2: with the partial price map missing timestamp 200 the
aggregation errors, and with the full positive price map it returns a
chart. -/
theorem getChartData_missing_price_witness :
    ((∃ t ∈ inputTimestamps exValues, jsGetNum exPricesPart t = none) ∧
      ∃ t : Nat, getChartData exValues exPricesPart false =
        .error ("No ETH price for " ++ toString t)) ∧
    ((∀ t ∈ inputTimestamps exValues, 0 < (jsGetNum exPrices t).getD 0) ∧
      ∃ chart, getChartData exValues exPrices false = .ok chart) := by
  have habs : ∃ t ∈ inputTimestamps exValues, jsGetNum exPricesPart t = none :=
    ⟨200, by decide, by decide⟩
  have hpos : ∀ t ∈ inputTimestamps exValues,
      0 < (jsGetNum exPrices t).getD 0 := by
    intro t ht
    simp only [exValues, inputTimestamps_cons, inputTimestamps_nil, keysOf,
      List.map_cons, List.map_nil, List.mem_append, List.mem_cons,
      List.not_mem_nil, or_false] at ht
    rcases ht with (rfl | rfl) | rfl <;>
      norm_num [jsGetNum, exPrices]
  exact ⟨⟨habs, (getChartData_missing_price exValues exPricesPart false).1 habs⟩,
    ⟨hpos, (getChartData_missing_price exValues exPrices false).2 hpos⟩⟩

/-- Claim C3: `computeTotal` takes the last element of its chart sequence by
sequence order — appending a final point makes the result that of the
one-point sequence holding just that point — and fails with the NoDataError
(`'No latest value'`) exactly when the sequence is empty. -/
theorem computeTotal_last_or_noData (chart : List ChartPoint) :
    ((∃ e, computeTotal chart = .error e) ↔ chart = []) ∧
    (∀ pt, computeTotal (chart ++ [pt]) = computeTotal [pt]) := by
  constructor
  · constructor
    · rintro ⟨e, he⟩
      cases hc : chart.getLast? with
      | none => exact List.getLast?_eq_none_iff.1 hc
      | some pt =>
        rw [computeTotal_last chart pt hc] at he
        cases he
    · rintro rfl
      exact ⟨"No latest value", rfl⟩
  · intro pt
    rw [computeTotal_last (chart ++ [pt]) pt (List.getLast?_concat chart),
      computeTotal_last [pt] pt rfl]

/-- Witness for C3: the empty chart errors with `'No latest value'`, and on
the concrete chart of the shared example an appended final point alone
decides the total. -/
theorem computeTotal_last_or_noData_witness :
    (∃ e, computeTotal [] = .error e) ∧
    computeTotal (exChart ++
        [{ timestamp := 300, native := 1, canonical := 1, external := 1,
           ethPrice := 2 }]) =
      computeTotal
        [{ timestamp := 300, native := 1, canonical := 1, external := 1,
           ethPrice := 2 }] :=
  ⟨(computeTotal_last_or_noData []).1.2 rfl,
   (computeTotal_last_or_noData exChart).2
     { timestamp := 300, native := 1, canonical := 1, external := 1,
       ethPrice := 2 }⟩

/-- Claim C4: for every non-empty chart sequence whose last point is `pt`,
the latest-total summary is `usd = (native + canonical + external) / 100`
and `eth = (native + canonical + external) / price`, with display scale
100. -/
theorem computeTotal_latest_formula (chart : List ChartPoint)
    (pt : ChartPoint) (h : chart.getLast? = some pt) :
    computeTotal chart =
      .ok { usd := (pt.native + pt.canonical + pt.external) / 100,
            eth := (pt.native + pt.canonical + pt.external) / pt.ethPrice } :=
  computeTotal_last chart pt h

/-- Witness for C4 at the concrete chart of the shared example: the last
point is (200, 0, 300, 0, 300). -/
theorem computeTotal_latest_formula_witness :
    exChart.getLast? =
      some { timestamp := 200, native := 0, canonical := 300, external := 0,
             ethPrice := 300 } ∧
    computeTotal exChart =
      .ok { usd := ((0 : ℚ) + 300 + 0) / 100, eth := ((0 : ℚ) + 300 + 0) / 300 } :=
  ⟨rfl, computeTotal_latest_formula exChart
    { timestamp := 200, native := 0, canonical := 300, external := 0,
      ethPrice := 300 } rfl⟩

/-- Counterexample to C5 as stated: at the spec's worked example
(`{P1: {100: [{source: 'native', value: 500}]}}`, prices `{100: 2000}`,
`excludeAssociatedTokens = false`) the summed native component is emitted
unrescaled as 500, not scaled down to 5.0, so the chart is
`[(100, 500, 0, 0, 200000)]` and differs from the claimed
`[(100, 5.0, 0.0, 0.0, 200000)]`. -/
theorem getChartData_no_rescale_cex :
    getChartData exValuesSpec exPricesSpec false =
      .ok [{ timestamp := 100, native := 500, canonical := 0, external := 0,
             ethPrice := 200000 }] ∧
    ¬ getChartData exValuesSpec exPricesSpec false =
      .ok [{ timestamp := 100, native := 5, canonical := 0, external := 0,
             ethPrice := 200000 }] := by
  have h : getChartData exValuesSpec exPricesSpec false =
      .ok [{ timestamp := 100, native := 500, canonical := 0, external := 0,
             ethPrice := 200000 }] := by
    norm_num +decide [exValuesSpec, exPricesSpec, getChartData, chartPoints,
      mergeTimestampValues, mergeProject, jsSetNum, jsGetNum,
      sumValuesPerSource, sumSource]
  refine ⟨h, ?_⟩
  rw [h]
  intro hc
  simp only [Except.ok.injEq, List.cons.injEq, ChartPoint.mk.injEq] at hc
  norm_num at hc

/-- Claim C5 (amended): every emitted chart point is the tuple
`(timestamp, native, canonical, external, price * 100)` where the summed
components enter the tuple at their fixed-point integer magnitude, converted
to a number without any rescaling; in particular the spec's worked example
yields `[(100, 500, 0, 0, 200000)]`, not `[(100, 5.0, 0.0, 0.0, 200000)]`. -/
theorem getChartData_emission :
    (∀ (values : List (String × List (Nat × List ValueRecord)))
        (prices : List (Nat × ℚ)) (ex : Bool) (chart : List ChartPoint),
        getChartData values prices ex = .ok chart →
        List.Forall₂ (emitsPoint prices ex) (mergeTimestampValues values)
          chart) ∧
    getChartData exValuesSpec exPricesSpec false =
      .ok [{ timestamp := 100, native := 500, canonical := 0, external := 0,
             ethPrice := 200000 }] := by
  constructor
  · intro values prices ex chart h
    exact chartPoints_ok_forall2 prices ex (mergeTimestampValues values)
      chart h
  · norm_num +decide [exValuesSpec, exPricesSpec, getChartData, chartPoints,
      mergeTimestampValues, mergeProject, jsSetNum, jsGetNum,
      sumValuesPerSource, sumSource]

/-- Witness for C5 (amended) at the shared two-project example. -/
theorem getChartData_emission_witness :
    getChartData exValues exPrices false = .ok exChart ∧
    List.Forall₂ (emitsPoint exPrices false) (mergeTimestampValues exValues)
      exChart :=
  ⟨by norm_num +decide [exValues, exPrices, exChart, getChartData,
      chartPoints, mergeTimestampValues, mergeProject, jsSetNum, jsGetNum,
      sumValuesPerSource, sumSource],
   getChartData_emission.1 exValues exPrices false exChart
     (by norm_num +decide [exValues, exPrices, exChart, getChartData,
       chartPoints, mergeTimestampValues, mergeProject, jsSetNum, jsGetNum,
       sumValuesPerSource, sumSource])⟩

/-- Claim C6: reordering the projects of the Project-Value Map does not
change the result of `getChartData` at all — in particular no chart point's
summed values — and the per-timestamp merge collects the records of every
project: each merged bucket is the concatenation of every project's record
list stored under that timestamp, in project order. -/
theorem getChartData_project_reorder
    (values values' : List (String × List (Nat × List ValueRecord)))
    (prices : List (Nat × ℚ)) (ex : Bool) (h : values.Perm values') :
    getChartData values prices ex = getChartData values' prices ex ∧
    (∀ t, (jsGetNum (mergeTimestampValues values) t).getD [] =
      allBucket values t) := by
  refine ⟨?_, getD_jsGetNum_merged values⟩
  unfold getChartData
  apply chartPoints_congr
  apply forall2_of_lookup_perm
  · exact keysOf_merged_eq_of_perm h
  · exact pairwise_keysOf_merged values
  · intro t
    rw [getD_jsGetNum_merged, getD_jsGetNum_merged]
    exact allBucket_perm h t

/-- Witness for C6: swapping the two projects of the shared example leaves
the chart unchanged. -/
theorem getChartData_project_reorder_witness :
    exValues.Perm exValuesSwapped ∧
    getChartData exValues exPrices false =
      getChartData exValuesSwapped exPrices false :=
  ⟨by decide,
   (getChartData_project_reorder exValues exValuesSwapped exPrices false
     (by decide)).1⟩

/-- Claim C7: on the same input, running with
`excludeAssociatedTokens = true` yields a chart with the same timestamps
point for point, whose native and canonical components never exceed those of
the run with `excludeAssociatedTokens = false`. -/
theorem getChartData_exclude_le
    (values : List (String × List (Nat × List ValueRecord)))
    (prices : List (Nat × ℚ)) (chartT chartF : List ChartPoint)
    (hT : getChartData values prices true = .ok chartT)
    (hF : getChartData values prices false = .ok chartF) :
    List.Forall₂ (fun a b => a.timestamp = b.timestamp ∧
      a.native ≤ b.native ∧ a.canonical ≤ b.canonical) chartT chartF := by
  have h1 := chartPoints_ok_forall2 prices true _ chartT hT
  have h2 := chartPoints_ok_forall2 prices false _ chartF hF
  refine forall2_comp ?_ h1 h2
  rintro e a b ⟨p, hp, hz, rfl⟩ ⟨q, hq, hw, rfl⟩
  refine ⟨rfl, ?_, ?_⟩
  · simp only [sumValuesPerSource]
    exact_mod_cast sumSource_exclude_le e.2 .native
  · simp only [sumValuesPerSource]
    exact_mod_cast sumSource_exclude_le e.2 .canonical

/-- Witness for C7 at the shared example: the associated canonical record at
timestamp 200 is dropped by the exclusion flag, 0 ≤ 300. -/
theorem getChartData_exclude_le_witness :
    getChartData exValues exPrices true = .ok exChartEx ∧
    getChartData exValues exPrices false = .ok exChart ∧
    List.Forall₂ (fun a b => a.timestamp = b.timestamp ∧
      a.native ≤ b.native ∧ a.canonical ≤ b.canonical) exChartEx exChart :=
  ⟨by norm_num +decide [exValues, exPrices, exChartEx, getChartData,
      chartPoints, mergeTimestampValues, mergeProject, jsSetNum, jsGetNum,
      sumValuesPerSource, sumSource],
   by norm_num +decide [exValues, exPrices, exChart, getChartData,
      chartPoints, mergeTimestampValues, mergeProject, jsSetNum, jsGetNum,
      sumValuesPerSource, sumSource],
   getChartData_exclude_le exValues exPrices exChartEx exChart
     (by norm_num +decide [exValues, exPrices, exChartEx, getChartData,
       chartPoints, mergeTimestampValues, mergeProject, jsSetNum, jsGetNum,
       sumValuesPerSource, sumSource])
     (by norm_num +decide [exValues, exPrices, exChart, getChartData,
       chartPoints, mergeTimestampValues, mergeProject, jsSetNum, jsGetNum,
       sumValuesPerSource, sumSource])⟩

/-- Claim C8: the chart sequence is ordered by timestamp strictly ascending:
one tuple per timestamp of the merged map, emitted in that map's iteration
order, with the aggregator performing no sort of its own.  For
integer-index keys the iteration order is ascending numeric order, so the
ordering holds for every input, even without the chronological upstream
insertion the spec assumes. -/
theorem getChartData_sorted_ascending
    (values : List (String × List (Nat × List ValueRecord)))
    (prices : List (Nat × ℚ)) (ex : Bool) (chart : List ChartPoint)
    (h : getChartData values prices ex = .ok chart) :
    chart.map (fun pt => pt.timestamp) =
      keysOf (mergeTimestampValues values) ∧
    (chart.map (fun pt => pt.timestamp)).Pairwise (· < ·) := by
  have hmap :=
    map_timestamp_of_forall2 (chartPoints_ok_forall2 prices ex _ chart h)
  refine ⟨hmap, ?_⟩
  rw [hmap]
  exact pairwise_keysOf_merged values

/-- Witness for C8 at the shared example: the chart timestamps are
`[100, 200]`, the merged map's iteration order, strictly ascending. -/
theorem getChartData_sorted_ascending_witness :
    getChartData exValues exPrices false = .ok exChart ∧
    exChart.map (fun pt => pt.timestamp) =
      keysOf (mergeTimestampValues exValues) ∧
    (exChart.map (fun pt => pt.timestamp)).Pairwise (· < ·) :=
  ⟨by norm_num +decide [exValues, exPrices, exChart, getChartData,
      chartPoints, mergeTimestampValues, mergeProject, jsSetNum, jsGetNum,
      sumValuesPerSource, sumSource],
   getChartData_sorted_ascending exValues exPrices false exChart
     (by norm_num +decide [exValues, exPrices, exChart, getChartData,
       chartPoints, mergeTimestampValues, mergeProject, jsSetNum, jsGetNum,
       sumValuesPerSource, sumSource])⟩

/-- Claim C9: in mock mode, for range `'7d'` at hourly resolution, the
number of generated chart points is exactly the number of hourly buckets
between target − 7 days and target, boundaries inclusive — `7 * 24 + 1` —
and every generated point carries the fixed placeholder magnitudes
`(3000, 2000, 1000, 1200)`. -/
theorem getMockTvlChartData7d_count (now : Nat)
    (h : 7 * 86400 ≤ now / 3600 * 3600) :
    ((getMockTvlChartData7d now).2).length = 7 * 24 + 1 ∧
    (∀ pt ∈ (getMockTvlChartData7d now).2,
      pt.native = 3000 ∧ pt.canonical = 2000 ∧ pt.external = 1000 ∧
      pt.ethPrice = 1200) := by
  constructor
  · simp only [getMockTvlChartData7d, rangeConfig7d, bucketSeconds,
      generateTimestamps, List.length_map, List.length_range]
    omega
  · intro pt hpt
    simp only [getMockTvlChartData7d, List.mem_map] at hpt
    obtain ⟨t, _, rfl⟩ := hpt
    exact ⟨rfl, rfl, rfl, rfl⟩

/-- Witness for C9 at the concrete current time 1814400 (a multiple of
3600): the mock '7d' chart has 169 points. -/
theorem getMockTvlChartData7d_count_witness :
    7 * 86400 ≤ 1814400 / 3600 * 3600 ∧
    ((getMockTvlChartData7d 1814400).2).length = 7 * 24 + 1 :=
  ⟨by norm_num,
   (getMockTvlChartData7d_count 1814400 (by norm_num)).1⟩

/-- Claim C10: the price check of `getChartData` is by truthiness, not by
presence: a Price Map entry that is present but equal to 0 makes the
aggregation fail with the same `'No ETH price'` error as an absent entry,
and a chart point is emitted for a timestamp only if its price entry exists
and is nonzero. -/
theorem getChartData_price_truthiness
    (values : List (String × List (Nat × List ValueRecord)))
    (prices : List (Nat × ℚ)) (ex : Bool) :
    ((∃ t ∈ inputTimestamps values, jsGetNum prices t = some 0) →
      ∃ t : Nat, getChartData values prices ex =
        .error ("No ETH price for " ++ toString t)) ∧
    (∀ (chart : List ChartPoint) (pt : ChartPoint),
      getChartData values prices ex = .ok chart → pt ∈ chart →
      ∃ p : ℚ, jsGetNum prices pt.timestamp = some p ∧ p ≠ 0) := by
  constructor
  · rintro ⟨t, hmem, hzero⟩
    rw [← mem_keysOf_merged] at hmem
    obtain ⟨e, he⟩ := chartPoints_error_of_bad_price prices ex _ t hmem
      (by simp [hzero])
    obtain ⟨u, _, _, hshape⟩ :=
      chartPoints_error_shape prices ex (mergeTimestampValues values) e he
    refine ⟨u, ?_⟩
    rw [getChartData, he, hshape]
  · intro chart pt hok hpt
    have hf := chartPoints_ok_forall2 prices ex _ chart hok
    obtain ⟨e, _, p, hp, hz, hpt'⟩ := forall2_exists_left hf hpt
    subst hpt'
    exact ⟨p, by simpa using hp, hz⟩

/-- Witness for C10: the zero entry for timestamp 100 makes the shared
example fail, and in the successful run every point's price entry is present
and nonzero. -/
theorem getChartData_price_truthiness_witness :
    ((∃ t ∈ inputTimestamps exValues, jsGetNum exPricesZero t = some 0) ∧
      ∃ t : Nat, getChartData exValues exPricesZero false =
        .error ("No ETH price for " ++ toString t)) ∧
    (getChartData exValues exPrices false = .ok exChart ∧
      ∃ p : ℚ, jsGetNum exPrices
        ({ timestamp := 100, native := 500, canonical := 0, external := 7,
           ethPrice := 200 } : ChartPoint).timestamp = some p ∧ p ≠ 0) := by
  have hzero : ∃ t ∈ inputTimestamps exValues,
      jsGetNum exPricesZero t = some 0 :=
    ⟨100, by decide, by norm_num [jsGetNum, exPricesZero]⟩
  have hok : getChartData exValues exPrices false = .ok exChart := by
    norm_num +decide [exValues, exPrices, exChart, getChartData, chartPoints,
      mergeTimestampValues, mergeProject, jsSetNum, jsGetNum,
      sumValuesPerSource, sumSource]
  exact ⟨⟨hzero,
      (getChartData_price_truthiness exValues exPricesZero false).1 hzero⟩,
    hok,
    (getChartData_price_truthiness exValues exPrices false).2 exChart
      { timestamp := 100, native := 500, canonical := 0, external := 7,
        ethPrice := 200 } hok (by simp [exChart])⟩

end Tvl
